import Mathlib

/-!
Verification of the habit-tracker productivity app's core stores.

The TypeScript sources operate on browser local storage; each mutating
function is a synchronous read-modify-write of a handful of named lists.
We embed each store's persisted contents as an explicit Lean structure and
each operation as a pure state transformer.  Values the code obtains from
the environment (the current clock via `Date.now()` / `new Date()`) become
explicit parameters:

* `nowMs : Nat` stands for `Date.now()` (milliseconds since epoch);
  `Date.now().toString()` is modelled by `natDecimalString nowMs`,
  the decimal rendering of that number.
* `nowIso : String` stands for `new Date().toISOString()`; the code only
  ever compares the first ten characters (`slice(0, 10)`) of such strings
  lexicographically, which matches `String.take 10` and `<` on `String`.
* `today : String` stands for `new Date().toISOString().slice(0, 10)` and
  `dayOfWeek : Nat` for `new Date().getDay()` (0 = Sunday .. 6 = Saturday),
  both sampled once per operation as in the source.

JavaScript `Math.round(x)` on the non-negative quotients appearing in the
code (`Math.round((a / b) * 100)`) is modelled by exact rational
half-up rounding `jsRound`; for the ratios the code produces the IEEE
double result never falls on the opposite side of a half-integer from the
exact rational value at the magnitudes involved.
-/

/-- Digit characters of `n` in base 10, most significant first; the
first argument is structural fuel (any bound of at least `n` yields the
full rendering). -/
def decChars : Nat → Nat → List Char
  | _, 0 => []
  | 0, _ + 1 => []
  | fuel + 1, n + 1 => decChars fuel ((n + 1) / 10) ++ [Nat.digitChar ((n + 1) % 10)]

/-- Decimal rendering of a natural number: the model of
`Date.now().toString()` (and `(number).toString()` generally) from the
TypeScript sources. -/
def natDecimalString (n : Nat) : String :=
  if n = 0 then "0" else (decChars n n).asString

/-- JavaScript `Math.round (num / den)` for non-negative `num`, positive
`den`: round half up, computed exactly on rationals. -/
def jsRound (num den : Nat) : Nat :=
  (2 * num + den) / (2 * den)

/-- The three task partitions of `todoLocalStorage.ts`
(`listType: 'todo' | 'done' | 'tomorrow'`). -/
inductive ListType
  | todo
  | done
  | tomorrow
deriving DecidableEq, Repr, Fintype

/-- `TodoTask` from `todoLocalStorage.ts`.  Optional fields become
`Option`; `actualTime` (seconds) becomes `Nat`. -/
structure TodoTask where
  id : String
  text : String
  estimatedTime : String
  actualTime : Option Nat := none
  completed : Bool
  createdAt : String
  completedAt : Option String := none
  listType : ListType
  source : Option String := none
  habitId : Option String := none
  goalId : Option String := none
  subGoalId : Option String := none
deriving DecidableEq, Repr

/-- `Omit<TodoTask, 'id' | 'createdAt'>`: the draft accepted by `addTask`. -/
structure TaskDraft where
  text : String
  estimatedTime : String
  actualTime : Option Nat := none
  completed : Bool
  completedAt : Option String := none
  listType : ListType
  source : Option String := none
  habitId : Option String := none
  goalId : Option String := none
  subGoalId : Option String := none
deriving DecidableEq, Repr

/-- The persisted contents of the three task lists
(`todoList`, `doneList`, `tomorrowList` keys of local storage). -/
structure TodoStore where
  todoList : List TodoTask
  doneList : List TodoTask
  tomorrowList : List TodoTask
deriving DecidableEq, Repr

/-- Dispatch on a partition name, as the source's `getTodoList` /
`getDoneList` / `getTomorrowList` branches do. -/
def TodoStore.getList (s : TodoStore) : ListType → List TodoTask
  | ListType.todo => s.todoList
  | ListType.done => s.doneList
  | ListType.tomorrow => s.tomorrowList

/-- Dispatch on a partition name, as the source's `saveTodoList` /
`saveDoneList` / `saveTomorrowList` branches do. -/
def TodoStore.setList (s : TodoStore) : ListType → List TodoTask → TodoStore
  | ListType.todo, l => { s with todoList := l }
  | ListType.done, l => { s with doneList := l }
  | ListType.tomorrow, l => { s with tomorrowList := l }

/-- `addTask` from `todoLocalStorage.ts`: builds the new task from the
draft with `id := Date.now().toString()` and `createdAt := new
Date().toISOString()`, appends it to the `todo` or `tomorrow` list when
the draft names one of those, and returns it.  A draft whose `listType`
is `done` falls through both `if` branches: the task is returned but not
stored anywhere. -/
def addTask (nowMs : Nat) (nowIso : String) (task : TaskDraft) (s : TodoStore) :
    TodoStore × TodoTask :=
  let newTask : TodoTask :=
    { id := natDecimalString nowMs
      text := task.text
      estimatedTime := task.estimatedTime
      actualTime := task.actualTime
      completed := task.completed
      createdAt := nowIso
      completedAt := task.completedAt
      listType := task.listType
      source := task.source
      habitId := task.habitId
      goalId := task.goalId
      subGoalId := task.subGoalId }
  match task.listType with
  | ListType.todo => ({ s with todoList := s.todoList ++ [newTask] }, newTask)
  | ListType.tomorrow => ({ s with tomorrowList := s.tomorrowList ++ [newTask] }, newTask)
  | ListType.done => (s, newTask)

/-- `moveTask` from `todoLocalStorage.ts`: look the task up in the source
list by id, save the source list with every task of that id removed, and
if the lookup succeeded set `listType` to the destination and append to
the destination list (read after the source list was saved). -/
def moveTask (id : String) (src dst : ListType) (s : TodoStore) : TodoStore :=
  let fromList := s.getList src
  let task := fromList.find? (fun t => t.id == id)
  let s1 := s.setList src (fromList.filter (fun t => t.id != id))
  match task with
  | none => s1
  | some t =>
    let moved := { t with listType := dst }
    s1.setList dst (s1.getList dst ++ [moved])

/-- The per-task condition of `rolloverIfNeeded` in `todoLocalStorage.ts`:
`t.createdAt && t.createdAt.slice(0, 10) < today` (an empty `createdAt`
string is falsy in JavaScript, so such a task is never moved). -/
def overdue (today : String) (t : TodoTask) : Bool :=
  t.createdAt != "" && decide (t.createdAt.take 10 < today)

/-- `rolloverIfNeeded` from `todoLocalStorage.ts` (the per-task variant,
the one implementing the spec's stated rollover policy): move every
Tomorrow task created strictly before today to the To-Do list, updating
its `listType`; nothing else changes.  When nothing qualifies the store
is written back untouched. -/
def rolloverIfNeeded (today : String) (s : TodoStore) : TodoStore :=
  let tomorrow := s.tomorrowList
  let todo := s.todoList
  let toMove := tomorrow.filter (overdue today)
  if toMove.length > 0 then
    let updatedTodo := todo ++ toMove.map (fun t => { t with listType := ListType.todo })
    let remainingTomorrow := tomorrow.filter (fun t => !overdue today t)
    { s with todoList := updatedTodo, tomorrowList := remainingTomorrow }
  else s

/-- The task-list state of the older variant of `todoLocalStorage.ts`,
which additionally persists a `todoLastActiveDate` marker
(`getLastActiveDate` returns `null` when the key is absent). -/
structure TodoStoreV1 where
  todoList : List TodoTask
  doneList : List TodoTask
  tomorrowList : List TodoTask
  lastActiveDate : Option String
deriving DecidableEq, Repr

/-- `rolloverIfNeeded` of the older variant: when the stored last-active
date differs from today, clear the Done list, bulk-move the whole
Tomorrow list into To-Do, and record today as the last active date. -/
def rolloverIfNeededV1 (today : String) (s : TodoStoreV1) : TodoStoreV1 :=
  if s.lastActiveDate != some today then
    { todoList := s.todoList ++ s.tomorrowList.map (fun t => { t with listType := ListType.todo })
      doneList := []
      tomorrowList := []
      lastActiveDate := some today }
  else s

/-- `FrequencyType` from `habitLocalStorage.ts`. -/
inductive FrequencyType
  | daily
  | weekly
  | custom
deriving DecidableEq, Repr

/-- `HabitType` from `habitLocalStorage.ts` (`'good' | 'avoid'`). -/
inductive HabitType
  | good
  | avoid
deriving DecidableEq, Repr

/-- The `frequency` record embedded in `Habit`. -/
structure Frequency where
  type : FrequencyType
  daysOfWeek : Option (List Nat) := none
  timesPerWeek : Option Nat := none
deriving DecidableEq, Repr

/-- `Habit` from `habitLocalStorage.ts`. -/
structure Habit where
  id : String
  name : String
  description : Option String := none
  habitType : Option HabitType := none
  frequency : Frequency
  startDate : String
  endDate : Option String := none
  reminderTime : Option String := none
  autoAddToTodo : Option Bool := none
  replacementHabit : Option String := none
deriving DecidableEq, Repr

/-- A completion ledger: the JSON object `{ [habitId]: string[] }` of
`habitCompletions` / `habitHistoricalCompletions`, embedded as an
association list with the object's (unique-key) lookup semantics. -/
def Ledger : Type := List (String × List String)

/-- The persisted contents of the habit store: the `habits` list and the
current and historical completion ledgers. -/
structure HabitStore where
  habits : List Habit
  completions : Ledger
  historicalCompletions : Ledger

/-- Object indexing `ledger[habitId] || []`. -/
def lookupLedger (ledger : Ledger) (habitId : String) : List String :=
  (List.lookup habitId ledger).getD []

/-- `deleteHabit` from `habitLocalStorage.ts`: drop the habit from the
habit list and `delete completions[id]` from the current ledger; the
historical ledger is not read or written. -/
def deleteHabit (id : String) (st : HabitStore) : HabitStore :=
  { habits := st.habits.filter (fun h => h.id != id)
    completions := st.completions.filter (fun p => p.1 != id)
    historicalCompletions := st.historicalCompletions }

/-- `getHistoricalCompletionsForRange` from `habitLocalStorage.ts`:
filter the habit's historical dates to `date >= startDate && date <=
endDate` (ISO date strings compared lexicographically; JavaScript
`a >= b` on strings is the negation of `a < b`). -/
def getHistoricalCompletionsForRange (st : HabitStore) (habitId startDate endDate : String) :
    List String :=
  (lookupLedger st.historicalCompletions habitId).filter
    (fun date => !decide (date < startDate) && !decide (endDate < date))

/-- `isHabitScheduledForToday` from `routine.ts`, with `new
Date().getDay()` passed in as `dayOfWeek`:  `daily` is always scheduled,
`custom` iff `daysOfWeek?.includes(dayOfWeek) ?? false`, and `weekly`
never (the code's final `return false`). -/
def isHabitScheduledForToday (dayOfWeek : Nat) (habit : Habit) : Bool :=
  if habit.frequency.type == FrequencyType.daily then
    true
  else if habit.frequency.type == FrequencyType.custom then
    match habit.frequency.daysOfWeek with
    | some days => days.contains dayOfWeek
    | none => false
  else
    false

/-- The eligibility test of `runDailyHabitRoutines`: `habit.habitType ===
'good' && habit.autoAddToTodo && isHabitScheduledForToday(habit)`. -/
def routineEligible (dayOfWeek : Nat) (habit : Habit) : Bool :=
  habit.habitType == some HabitType.good
    && habit.autoAddToTodo == some true
    && isHabitScheduledForToday dayOfWeek habit

/-- The duplicate check of `runDailyHabitRoutines` against the To-Do list
snapshot taken at the start of the run:  `todoList.some(t => t.habitId
=== habit.id && t.createdAt.slice(0, 10) === today)`. -/
def routineTaskExists (today : String) (habitId : String) (todoSnapshot : List TodoTask) : Bool :=
  todoSnapshot.any (fun t => t.habitId == some habitId && t.createdAt.take 10 == today)

/-- The draft `runDailyHabitRoutines` passes to `addTask` for an eligible
habit. -/
def routineTaskDraft (habit : Habit) : TaskDraft :=
  { text := habit.name ++ " (from Habit)"
    estimatedTime := ""
    completed := false
    listType := ListType.todo
    source := some "Routine"
    habitId := some habit.id }

/-- The `habits.forEach` loop body of `runDailyHabitRoutines`, habit by
habit.  `stamp k` is the clock sample `(Date.now(), new
Date().toISOString())` observed by the k-th `addTask` call of the run;
`todoSnapshot` is the To-Do list read once before the loop. -/
def runRoutineAux (dayOfWeek : Nat) (today : String) (stamp : Nat → Nat × String)
    (todoSnapshot : List TodoTask) : List Habit → Nat → TodoStore → TodoStore
  | [], _, s => s
  | habit :: rest, k, s =>
    if routineEligible dayOfWeek habit then
      if routineTaskExists today habit.id todoSnapshot then
        runRoutineAux dayOfWeek today stamp todoSnapshot rest k s
      else
        runRoutineAux dayOfWeek today stamp todoSnapshot rest (k + 1)
          ((addTask (stamp k).1 (stamp k).2 (routineTaskDraft habit) s).1)
    else
      runRoutineAux dayOfWeek today stamp todoSnapshot rest k s

/-- `runDailyHabitRoutines` from `routine.ts`: read the habit list, the
To-Do list, and today's date, then for every good, auto-add, scheduled
habit with no To-Do task for today referencing it, add one linked task. -/
def runDailyHabitRoutines (dayOfWeek : Nat) (today : String) (stamp : Nat → Nat × String)
    (habits : List Habit) (s : TodoStore) : TodoStore :=
  runRoutineAux dayOfWeek today stamp s.todoList habits 0 s

/-- The stats record returned by `getHabitStats`. -/
structure HabitStats where
  total : Nat
  currentStreak : Nat
  bestStreak : Nat
  percent : Nat
  completions : List String
deriving DecidableEq, Repr

/-- The best-streak `for` loop of `getHabitStats`: scan the week forward
carrying the current run length and the best seen so far. -/
def bestStreakLoop (comps : List String) : List String → Nat → Nat → Nat
  | [], _, best => best
  | d :: rest, cur, best =>
    if comps.contains d then bestStreakLoop comps rest (cur + 1) (max best (cur + 1))
    else bestStreakLoop comps rest 0 best

/-- `getHabitStats` from `habitLocalStorage.ts`, with the week's dates
(`getCurrentWeekDates()`, Sunday..Saturday of the current week) passed in
as `weekDates`.  The backward `for` loop with `break` computing the
current streak is the length of the longest fully-completed suffix,
i.e. `takeWhile` on the reversed week. -/
def getHabitStats (completionsMap : Ledger) (weekDates : List String) (habit : Habit) :
    HabitStats :=
  let completions := lookupLedger completionsMap habit.id
  let weekCompletions := completions.filter (fun date => weekDates.contains date)
  let streak := (weekDates.reverse.takeWhile (fun d => weekCompletions.contains d)).length
  let bestStreak := bestStreakLoop weekCompletions weekDates 0 0
  let percent :=
    if weekDates.length > 0 then jsRound (100 * weekCompletions.length) weekDates.length else 0
  { total := weekCompletions.length
    currentStreak := streak
    bestStreak := bestStreak
    percent := percent
    completions := weekCompletions }

/-- `SubGoal` from `goalsLocalStorage.ts`. -/
structure SubGoal where
  id : String
  text : String
  completed : Bool
  createdAt : String
  estimatedTime : Option Nat := none
deriving DecidableEq, Repr

/-- `Goal` from `goalsLocalStorage.ts`. -/
structure Goal where
  id : String
  title : String
  progress : Nat
  createdAt : String
  subGoals : List SubGoal
  completed : Bool
  completedAt : Option String := none
  feedback : Option String := none
  autoProgress : Bool
  rewardMotivation : Option String := none
deriving DecidableEq, Repr

/-- Replace the first element satisfying `p` by its image under `f`:
the effect of `findIndex` followed by assignment at that index. -/
def updateFirst (p : α → Bool) (f : α → α) : List α → List α
  | [] => []
  | x :: xs => if p x then f x :: xs else x :: updateFirst p f xs

/-- The mutation `toggleGoalAutoProgress` applies to the found goal: set
`autoProgress`, and when enabling recompute `progress =
Math.round((completedCount / subGoals.length) * 100)` (`0` with no
sub-goals). -/
def applyAutoProgress (auto : Bool) (g : Goal) : Goal :=
  let g1 := { g with autoProgress := auto }
  if auto then
    if g1.subGoals.length > 0 then
      let completedCount := (g1.subGoals.filter (fun sg => sg.completed)).length
      { g1 with progress := jsRound (100 * completedCount) g1.subGoals.length }
    else
      { g1 with progress := 0 }
  else
    g1

/-- `toggleGoalAutoProgress` from `goalsLocalStorage.ts`: find the goal
by id (`findIndex`); when absent return the list unchanged and
`undefined`; otherwise mutate that goal in place, save, and return it. -/
def toggleGoalAutoProgress (goalId : String) (auto : Bool) (goals : List Goal) :
    List Goal × Option Goal :=
  match goals.find? (fun g => g.id == goalId) with
  | none => (goals, none)
  | some g =>
    (updateFirst (fun g2 => g2.id == goalId) (applyAutoProgress auto) goals,
     some (applyAutoProgress auto g))

/-- `addHabit` from `habitLocalStorage.ts`: assign `id :=
Date.now().toString()`, default `habitType` to `'good'`, append. -/
def addHabit (nowMs : Nat) (habit : Habit) (st : HabitStore) : HabitStore × Habit :=
  let newHabit : Habit :=
    { habit with
        id := natDecimalString nowMs
        habitType := some (habit.habitType.getD HabitType.good) }
  ({ st with habits := st.habits ++ [newHabit] }, newHabit)

/-- `addGoal` from `goalsLocalStorage.ts`: fresh goal with `id :=
Date.now().toString()`, zero progress, no sub-goals, appended. -/
def addGoal (nowMs : Nat) (nowIso : String) (title : String) (rewardMotivation : Option String)
    (goals : List Goal) : List Goal × Goal :=
  let newGoal : Goal :=
    { id := natDecimalString nowMs
      title := title
      progress := 0
      createdAt := nowIso
      subGoals := []
      completed := false
      feedback := some ""
      autoProgress := false
      rewardMotivation := rewardMotivation }
  (goals ++ [newGoal], newGoal)

/-- Strictly-before-today test on the date bucket of `createdAt` alone
(the claim's phrasing of the rollover condition). -/
def createdBeforeToday (today : String) (t : TodoTask) : Bool :=
  decide (t.createdAt.take 10 < today)

/-- A concrete store used by witnesses: one Done task, and two Tomorrow
tasks of which one was created before 2024-03-05 and one on it. -/
def sampleStore : TodoStore :=
  { todoList := []
    doneList := [{ id := "7", text := "old done", estimatedTime := "", completed := true,
                   createdAt := "2024-03-01T08:00:00.000Z", listType := ListType.done }]
    tomorrowList :=
      [{ id := "5", text := "carry", estimatedTime := "", completed := false,
         createdAt := "2024-03-04T20:00:00.000Z", listType := ListType.tomorrow },
       { id := "6", text := "for today", estimatedTime := "", completed := false,
         createdAt := "2024-03-05T07:00:00.000Z", listType := ListType.tomorrow }] }

/-- The Done task of `sampleStore`, round-tripped by the C6 witness. -/
def sampleDoneTask : TodoTask :=
  { id := "7", text := "old done", estimatedTime := "", completed := true,
    createdAt := "2024-03-01T08:00:00.000Z", listType := ListType.done }

/-- The 2-of-4-sub-goals goal used by the C8 witness. -/
def sampleGoal : Goal :=
  { id := "11", title := "learn lean", progress := 10, createdAt := "2024-03-01T08:00:00.000Z"
    subGoals :=
      [{ id := "21", text := "a", completed := true, createdAt := "2024-03-01T08:00:01.000Z" },
       { id := "22", text := "b", completed := false, createdAt := "2024-03-01T08:00:02.000Z" },
       { id := "23", text := "c", completed := true, createdAt := "2024-03-01T08:00:03.000Z" },
       { id := "24", text := "d", completed := false, createdAt := "2024-03-01T08:00:04.000Z" }]
    completed := false
    autoProgress := false }

/-- A draft naming the Done partition, as `handleAddToTodo` in the
Pomodoro view passes when the slot is checked off. -/
def doneDraft : TaskDraft :=
  { text := "pomodoro item", estimatedTime := "", completed := true,
    listType := ListType.done }

/-- A draft naming the Tomorrow partition, for the amended-C9 witness. -/
def tomorrowDraft : TaskDraft :=
  { text := "later", estimatedTime := "15", completed := false,
    listType := ListType.tomorrow }

/-- Decode a decimal string back to the number it renders. -/
def decodeDecimal (s : String) : Nat :=
  s.data.foldl (fun acc c => 10 * acc + (c.toNat - 48)) 0

/-- `addSubGoal` from `goalsLocalStorage.ts`: find the goal by id; when
absent return the list unchanged and `undefined`; otherwise push a fresh
sub-goal (id from `Date.now().toString()`) onto that goal's `subGoals`,
save, and return the mutated goal. -/
def addSubGoal (nowMs : Nat) (nowIso : String) (goalId text : String)
    (estimatedTime : Option Nat) (goals : List Goal) : List Goal × Option Goal :=
  match goals.find? (fun g => g.id == goalId) with
  | none => (goals, none)
  | some g =>
    let newSubGoal : SubGoal :=
      { id := natDecimalString nowMs, text := text, completed := false,
        createdAt := nowIso, estimatedTime := estimatedTime }
    (updateFirst (fun g2 => g2.id == goalId)
       (fun g2 => { g2 with subGoals := g2.subGoals ++ [newSubGoal] }) goals,
     some { g with subGoals := g.subGoals ++ [newSubGoal] })

/-- A store with all three partitions empty. -/
def emptyStore : TodoStore := { todoList := [], doneList := [], tomorrowList := [] }

/-- First draft of the same-millisecond C10 counterexample. -/
def firstDraft : TaskDraft :=
  { text := "write report", estimatedTime := "30", completed := false,
    listType := ListType.todo }

/-- Second draft of the same-millisecond C10 counterexample. -/
def secondDraft : TaskDraft :=
  { text := "review notes", estimatedTime := "10", completed := false,
    listType := ListType.todo }

/-- A daily habit draft used by witnesses. -/
def stretchHabit : Habit :=
  { id := ""
    name := "stretch"
    frequency := { type := FrequencyType.daily }
    startDate := "2024-03-01" }

/-- An empty habit store used by witnesses. -/
def emptyHabitStore : HabitStore :=
  { habits := [], completions := [], historicalCompletions := [] }

/-- The task `addTask` builds for an eligible habit during a routine
run whose k-th clock sample is `stampK`. -/
def mkRoutineTask (stampK : Nat × String) (habit : Habit) : TodoTask :=
  { id := natDecimalString stampK.1
    text := habit.name ++ " (from Habit)"
    estimatedTime := ""
    completed := false
    createdAt := stampK.2
    listType := ListType.todo
    source := some "Routine"
    habitId := some habit.id }

/-- The tasks a routine run creates, in habit order, starting at clock
sample `k`. -/
def routineCreated (dayOfWeek : Nat) (today : String) (stamp : Nat → Nat × String)
    (todoSnapshot : List TodoTask) : List Habit → Nat → List TodoTask
  | [], _ => []
  | habit :: rest, k =>
    if routineEligible dayOfWeek habit then
      if routineTaskExists today habit.id todoSnapshot then
        routineCreated dayOfWeek today stamp todoSnapshot rest k
      else
        mkRoutineTask (stamp k) habit
          :: routineCreated dayOfWeek today stamp todoSnapshot rest (k + 1)
    else
      routineCreated dayOfWeek today stamp todoSnapshot rest k

/-- The membership test `runDailyHabitRoutines` uses: a task referencing
the habit whose creation date-bucket is today. -/
def matchesHabitToday (today habitId : String) (t : TodoTask) : Bool :=
  t.habitId == some habitId && t.createdAt.take 10 == today

/-- Every task of the store, over all three partitions. -/
def allTasks (s : TodoStore) : List TodoTask :=
  s.todoList ++ s.doneList ++ s.tomorrowList

/-- The eligible daily habit of the C3 witness. -/
def routineHabit : Habit :=
  { id := "h1"
    name := "meditate"
    habitType := some HabitType.good
    frequency := { type := FrequencyType.daily }
    startDate := "2024-03-01"
    autoAddToTodo := some true }

/-- The clock-sample sequence of the C3 witness: millisecond 1000 + k,
all within 2024-03-05. -/
def witnessStamp (k : Nat) : Nat × String := (1000 + k, "2024-03-05T09:00:00.000Z")

/-- Count of consecutive completed days from the front of a (reversed)
week until the first gap: the spec's walking-backward streak. -/
def walkBackCount (completed : String → Bool) : List String → Nat
  | [] => 0
  | d :: earlier => if completed d then walkBackCount completed earlier + 1 else 0

/-- The spec's `currentStreak`: count of consecutive completed days
walking backward from Saturday (the end of the week) until the first
gap. -/
def specCurrentStreak (completed : String → Bool) (week : List String) : Nat :=
  walkBackCount completed week.reverse

/-- Does the week contain `k` consecutive days that are all completed? -/
def hasCompletedRun (completed : String → Bool) (week : List String) (k : Nat) : Bool :=
  (List.range (week.length + 1)).any (fun i =>
    (((week.drop i).take k).length == k) && ((week.drop i).take k).all completed)

/-- The spec's `bestStreak`: the length of the longest run of
consecutive completed days scanning the week forward. -/
def specBestStreak (completed : String → Bool) (week : List String) : Nat :=
  ((List.range (week.length + 1)).filter (hasCompletedRun completed week)).foldr max 0

/-- `walkBackCount` on the Bool pattern of the week. -/
def boolWalkBack : List Bool → Nat
  | [] => 0
  | b :: rest => if b then boolWalkBack rest + 1 else 0

/-- `bestStreakLoop` on the Bool pattern of the week. -/
def boolBestLoop : List Bool → Nat → Nat → Nat
  | [], _, best => best
  | b :: rest, cur, best =>
    if b then boolBestLoop rest (cur + 1) (max best (cur + 1))
    else boolBestLoop rest 0 best

/-- `hasCompletedRun` on the Bool pattern of the week. -/
def boolHasRun (bs : List Bool) (k : Nat) : Bool :=
  (List.range (bs.length + 1)).any (fun i =>
    (((bs.drop i).take k).length == k) && ((bs.drop i).take k).all (fun b => b))

/-- `specBestStreak` on the Bool pattern of the week. -/
def boolSpecBest (bs : List Bool) : Nat :=
  ((List.range (bs.length + 1)).filter (boolHasRun bs)).foldr max 0

/-- The week Sunday 2024-03-03 .. Saturday 2024-03-09. -/
def sampleWeek : List String :=
  ["2024-03-03", "2024-03-04", "2024-03-05", "2024-03-06", "2024-03-07",
   "2024-03-08", "2024-03-09"]

/-- A current ledger marking habit `h1` complete on Monday and Wednesday
of `sampleWeek`. -/
def sampleLedger : Ledger := [("h1", ["2024-03-04", "2024-03-06"])]

/-- Looking a key up after filtering out exactly that key yields nothing. -/
theorem lookup_filter_self_eq_none (id : String) (l : Ledger) :
    List.lookup id (l.filter (fun p => p.1 != id)) = none := by
  induction l with
  | nil => rfl
  | cons hd tl ih =>
    by_cases h : hd.1 = id
    · simp [List.filter, h, ih]
    · have hb : (hd.1 != id) = true := by simp [h]
      have hbeq : (id == hd.1) = false := by
        simp
        exact fun hc => absurd (eq_comm.mp hc) h
      simp [List.filter, hb, List.lookup, hbeq, ih]

/-- C5: `isHabitScheduledForToday` returns true for `daily` recurrence,
for `custom` recurrence exactly when today's weekday is listed in
`daysOfWeek` (false when `daysOfWeek` is absent), and never for
`weekly`. -/
theorem isHabitScheduledForToday_spec (habit : Habit) (dayOfWeek : Nat) :
    isHabitScheduledForToday dayOfWeek habit = true ↔
      (habit.frequency.type = FrequencyType.daily ∨
       (habit.frequency.type = FrequencyType.custom ∧
        ∃ days, habit.frequency.daysOfWeek = some days ∧ dayOfWeek ∈ days)) := by
  cases htype : habit.frequency.type <;>
    cases hdays : habit.frequency.daysOfWeek <;>
      simp [isHabitScheduledForToday, htype, hdays]

/-- C7: `deleteHabit` leaves the historical ledger untouched (so
`getHistoricalCompletionsForRange` answers exactly as before), removes
the habit's entry from the current ledger, and removes the habit from
the habit list. -/
theorem deleteHabit_spec (st : HabitStore) (id habitId startDate endDate : String) :
    (deleteHabit id st).historicalCompletions = st.historicalCompletions
    ∧ getHistoricalCompletionsForRange (deleteHabit id st) habitId startDate endDate
        = getHistoricalCompletionsForRange st habitId startDate endDate
    ∧ List.lookup id (deleteHabit id st).completions = none
    ∧ (deleteHabit id st).habits = st.habits.filter (fun h => h.id != id) := by
  refine ⟨rfl, rfl, ?_, rfl⟩
  exact lookup_filter_self_eq_none id st.completions

/-- Filtering by a predicate after keeping only its complement leaves
nothing. -/
theorem filter_after_complement {α : Type} (p : α → Bool) (l : List α) :
    (l.filter (fun a => !p a)).filter p = [] := by
  rw [List.filter_filter]
  have : ∀ a ∈ l, ¬(p a && !p a) = true := by
    intro a _
    cases p a <;> simp
  exact List.filter_eq_nil_iff.mpr this

/-- C2: both observed rollover variants are idempotent: a second run on
the same day returns the store produced by the first run unchanged,
partitions and (for the marker-based variant) the last-active-date
marker included. -/
theorem rollover_idempotent (today : String) (s : TodoStore) (sV1 : TodoStoreV1) :
    rolloverIfNeeded today (rolloverIfNeeded today s) = rolloverIfNeeded today s
    ∧ rolloverIfNeededV1 today (rolloverIfNeededV1 today sV1) = rolloverIfNeededV1 today sV1 := by
  constructor
  · by_cases h : (s.tomorrowList.filter (overdue today)).length > 0
    · have h1 : rolloverIfNeeded today s =
          { s with
            todoList := s.todoList ++ (s.tomorrowList.filter (overdue today)).map
              (fun t => { t with listType := ListType.todo })
            tomorrowList := s.tomorrowList.filter (fun t => !overdue today t) } := by
        simp only [rolloverIfNeeded, if_pos h]
      have h2 : ((s.tomorrowList.filter (fun t => !overdue today t)).filter
          (overdue today)).length = 0 := by
        rw [filter_after_complement]
        rfl
      rw [h1]
      simp only [rolloverIfNeeded]
      rw [if_neg]
      simp [h2]
    · have h1 : rolloverIfNeeded today s = s := by
        simp only [rolloverIfNeeded, if_neg h]
      rw [h1, h1]
  · by_cases h : (sV1.lastActiveDate != some today) = true
    · have h1 : rolloverIfNeededV1 today sV1 =
          { todoList := sV1.todoList ++ sV1.tomorrowList.map
              (fun t => { t with listType := ListType.todo })
            doneList := []
            tomorrowList := []
            lastActiveDate := some today } := by
        simp only [rolloverIfNeededV1, if_pos h]
      rw [h1]
      simp [rolloverIfNeededV1]
    · have h1 : rolloverIfNeededV1 today sV1 = sV1 := by
        simp only [rolloverIfNeededV1]
        rw [if_neg h]
      rw [h1, h1]

/-- C1: for any store whose Tomorrow tasks carry (non-empty) creation
timestamps, one rollover run leaves the Done list untouched, keeps in
Tomorrow exactly the tasks not created strictly before today, and
appends to To-Do exactly the tasks created strictly before today with
only their `listType` rewritten to `todo`. -/
theorem rollover_moves_exactly_overdue (today : String) (s : TodoStore)
    (h : ∀ t ∈ s.tomorrowList, t.createdAt ≠ "") :
    (rolloverIfNeeded today s).doneList = s.doneList
    ∧ (rolloverIfNeeded today s).tomorrowList
        = s.tomorrowList.filter (fun t => !createdBeforeToday today t)
    ∧ (rolloverIfNeeded today s).todoList
        = s.todoList ++ (s.tomorrowList.filter (createdBeforeToday today)).map
            (fun t => { t with listType := ListType.todo }) := by
  have hcong : ∀ t ∈ s.tomorrowList, overdue today t = createdBeforeToday today t := by
    intro t ht
    have : (t.createdAt != "") = true := by simp [h t ht]
    simp [overdue, createdBeforeToday, this]
  have hfilter : s.tomorrowList.filter (overdue today)
      = s.tomorrowList.filter (createdBeforeToday today) :=
    List.filter_congr hcong
  have hfilterNeg : s.tomorrowList.filter (fun t => !overdue today t)
      = s.tomorrowList.filter (fun t => !createdBeforeToday today t) :=
    List.filter_congr (by intro t ht; rw [hcong t ht])
  by_cases hpos : (s.tomorrowList.filter (overdue today)).length > 0
  · have h1 : rolloverIfNeeded today s =
        { s with
          todoList := s.todoList ++ (s.tomorrowList.filter (overdue today)).map
            (fun t => { t with listType := ListType.todo })
          tomorrowList := s.tomorrowList.filter (fun t => !overdue today t) } := by
      simp only [rolloverIfNeeded, if_pos hpos]
    rw [h1, hfilter, hfilterNeg] at *
    exact ⟨rfl, rfl, rfl⟩
  · have hnil : s.tomorrowList.filter (overdue today) = [] := by
      cases hx : s.tomorrowList.filter (overdue today) with
      | nil => rfl
      | cons a l => rw [hx] at hpos; simp at hpos
    have h1 : rolloverIfNeeded today s = s := by
      simp only [rolloverIfNeeded, if_neg hpos]
    have hnone : ∀ t ∈ s.tomorrowList, ¬createdBeforeToday today t = true := by
      rw [hfilter] at hnil
      exact List.filter_eq_nil_iff.mp hnil
    refine ⟨by rw [h1], ?_, ?_⟩
    · rw [h1]
      have : s.tomorrowList.filter (fun t => !createdBeforeToday today t) = s.tomorrowList := by
        apply List.filter_eq_self.mpr
        intro t ht
        simp [hnone t ht]
      rw [this]
    · rw [h1, hfilter] at *
      rw [hnil]
      simp

/-- Witness for C1 at `sampleStore`. -/
theorem rollover_moves_exactly_overdue_witness :
    (∀ t ∈ sampleStore.tomorrowList, t.createdAt ≠ "")
    ∧ ((rolloverIfNeeded "2024-03-05" sampleStore).doneList = sampleStore.doneList
      ∧ (rolloverIfNeeded "2024-03-05" sampleStore).tomorrowList
          = sampleStore.tomorrowList.filter (fun t => !createdBeforeToday "2024-03-05" t)
      ∧ (rolloverIfNeeded "2024-03-05" sampleStore).todoList
          = sampleStore.todoList
              ++ (sampleStore.tomorrowList.filter (createdBeforeToday "2024-03-05")).map
                  (fun t => { t with listType := ListType.todo })) :=
  ⟨by decide, rollover_moves_exactly_overdue "2024-03-05" sampleStore (by decide)⟩

theorem TodoStore.getList_setList_same (s : TodoStore) (p : ListType) (l : List TodoTask) :
    (s.setList p l).getList p = l := by
  cases p <;> rfl

theorem TodoStore.getList_setList_ne (s : TodoStore) {p q : ListType} (l : List TodoTask)
    (h : q ≠ p) : (s.setList p l).getList q = s.getList q := by
  cases p <;> cases q <;> first | rfl | exact absurd rfl h

theorem TodoStore.setList_setList_same (s : TodoStore) (p : ListType) (l l2 : List TodoTask) :
    (s.setList p l).setList p l2 = s.setList p l2 := by
  cases p <;> rfl

/-- A list with exactly one element satisfying `p` finds that element. -/
theorem find_eq_some_of_countP_one {α : Type} (p : α → Bool) (t : α) :
    ∀ l : List α, l.countP p = 1 → t ∈ l → p t = true → l.find? p = some t := by
  intro l
  induction l with
  | nil => intro _ hmem; cases hmem
  | cons x xs ih =>
    intro hcount hmem hpt
    cases hpx : p x with
    | true =>
      rw [List.find?_cons_of_pos _ hpx]
      rcases List.mem_cons.mp hmem with hx | hxs
      · rw [hx]
      · exfalso
        have h0 : xs.countP p = 0 := by
          have := List.countP_cons_of_pos p xs hpx
          omega
        exact absurd hpt (by simpa using List.countP_eq_zero.mp h0 t hxs)
    | false =>
      rw [List.find?_cons_of_neg _ (by simp [hpx])]
      have hxs : t ∈ xs := by
        rcases List.mem_cons.mp hmem with hx | hxs
        · exact absurd (hx ▸ hpt) (by simp [hpx])
        · exact hxs
      have hc : xs.countP p = 1 := by
        have : List.countP p (x :: xs) = List.countP p xs :=
          List.countP_cons_of_neg p xs (by simp [hpx])
        omega
      exact ih hc hxs hpt

/-- Searching a list whose front rejects `p` finds the appended element. -/
theorem find_append_singleton {α : Type} (p : α → Bool) (x : α) (l : List α)
    (hl : ∀ u ∈ l, p u = false) (hx : p x = true) : (l ++ [x]).find? p = some x := by
  induction l with
  | nil => simp [List.find?, hx]
  | cons a as ih =>
    have ha : p a = false := hl a (by simp)
    rw [List.cons_append, List.find?_cons_of_neg _ (by simp [ha])]
    exact ih (fun u hu => hl u (by simp [hu]))

/-- Unfolding `moveTask` when the id lookup in the source list succeeds. -/
theorem moveTask_found (id : String) (src dst : ListType) (s : TodoStore) (t : TodoTask)
    (h : (s.getList src).find? (fun u => u.id == id) = some t) :
    moveTask id src dst s =
      (s.setList src ((s.getList src).filter (fun u => u.id != id))).setList dst
        ((s.setList src ((s.getList src).filter (fun u => u.id != id))).getList dst
          ++ [{ t with listType := dst }]) := by
  simp only [moveTask]
  rw [h]

/-- C6: moving a task out of its partition and straight back returns it
to that partition with all its original field values, and leaves every
other task of every partition exactly as it was (the returned task now
sits at the end of its partition's list). -/
theorem moveTask_round_trip (s : TodoStore) (t : TodoTask) (A B : ListType)
    (hmem : t ∈ s.getList A)
    (huniq : (s.getList A).countP (fun u => u.id == t.id) = 1)
    (hother : ∀ P, P ≠ A → ∀ u ∈ s.getList P, (u.id == t.id) = false)
    (hfield : t.listType = A) :
    (moveTask t.id B A (moveTask t.id A B s)).getList A
        = (s.getList A).filter (fun u => u.id != t.id) ++ [t]
    ∧ ∀ P, P ≠ A → (moveTask t.id B A (moveTask t.id A B s)).getList P = s.getList P := by
  have hpt : (t.id == t.id) = true := by simp
  have hfind1 : (s.getList A).find? (fun u => u.id == t.id) = some t :=
    find_eq_some_of_countP_one _ t _ huniq hmem hpt
  have htA : { t with listType := A } = t := by
    rw [← hfield]
  have hFkeep : ((s.getList A).filter (fun u => u.id != t.id)).filter (fun u => u.id != t.id)
      = (s.getList A).filter (fun u => u.id != t.id) :=
    List.filter_eq_self.mpr (fun u hu => (List.mem_filter.mp hu).2)
  have hFfalse : ∀ u ∈ (s.getList A).filter (fun u => u.id != t.id),
      (u.id == t.id) = false := by
    intro u hu
    have := (List.mem_filter.mp hu).2
    simpa using this
  have hm1 := moveTask_found t.id A B s t hfind1
  rcases eq_or_ne B A with hBA | hBA
  · subst hBA
    rw [TodoStore.getList_setList_same, TodoStore.setList_setList_same, htA] at hm1
    have hfind2 : ((moveTask t.id B B s).getList B).find? (fun u => u.id == t.id)
        = some t := by
      rw [hm1, TodoStore.getList_setList_same]
      exact find_append_singleton _ t _ hFfalse hpt
    have hm2 := moveTask_found t.id B B (moveTask t.id B B s) t hfind2
    rw [htA] at hm2
    rw [hm1] at hm2
    rw [TodoStore.getList_setList_same, List.filter_append, hFkeep] at hm2
    have hsingle : [t].filter (fun u => u.id != t.id) = [] := by simp
    rw [hsingle, List.append_nil, TodoStore.setList_setList_same,
      TodoStore.getList_setList_same, TodoStore.setList_setList_same] at hm2
    constructor
    · rw [hm1, hm2, TodoStore.getList_setList_same]
    · intro P hP
      rw [hm1, hm2, TodoStore.getList_setList_ne _ _ hP]
  · have hLB : (s.setList A ((s.getList A).filter (fun u => u.id != t.id))).getList B
        = s.getList B := TodoStore.getList_setList_ne _ _ hBA
    rw [hLB] at hm1
    have hallB : ∀ u ∈ s.getList B, (u.id == t.id) = false := hother B hBA
    have hptB : (({ t with listType := B } : TodoTask).id == t.id) = true := by simp
    have hfind2 : ((moveTask t.id A B s).getList B).find? (fun u => u.id == t.id)
        = some { t with listType := B } := by
      rw [hm1, TodoStore.getList_setList_same]
      exact find_append_singleton _ _ _ hallB hptB
    have hm2 := moveTask_found t.id B A (moveTask t.id A B s)
      { t with listType := B } hfind2
    have hBkeep : (s.getList B).filter (fun u => u.id != t.id) = s.getList B :=
      List.filter_eq_self.mpr (fun u hu => by
        have hne : u.id ≠ t.id := by simpa using hallB u hu
        simp [hne])
    have hsingleB : [({ t with listType := B } : TodoTask)].filter
        (fun u => u.id != t.id) = [] := by simp
    rw [hm1, TodoStore.getList_setList_same, List.filter_append, hBkeep, hsingleB,
      List.append_nil, TodoStore.setList_setList_same] at hm2
    have hback : ({ ({ t with listType := B } : TodoTask) with listType := A } : TodoTask)
        = t := htA
    rw [hback] at hm2
    have hgetA : (((s.setList A ((s.getList A).filter (fun u => u.id != t.id))).setList B
        (s.getList B)).getList A)
        = (s.getList A).filter (fun u => u.id != t.id) := by
      rw [TodoStore.getList_setList_ne _ _ (Ne.symm hBA), TodoStore.getList_setList_same]
    rw [hgetA] at hm2
    constructor
    · rw [hm1, hm2, TodoStore.getList_setList_same]
    · intro P hP
      rcases eq_or_ne P B with hPB | hPB
      · subst hPB
        rw [hm1, hm2, TodoStore.getList_setList_ne _ _ hBA, TodoStore.getList_setList_same]
      · rw [hm1, hm2, TodoStore.getList_setList_ne _ _ hP, TodoStore.getList_setList_ne _ _ hPB,
          TodoStore.getList_setList_ne _ _ hP]

/-- Witness for C6: round trip Done → To-Do → Done of `sampleDoneTask`
in `sampleStore`. -/
theorem moveTask_round_trip_witness :
    (sampleDoneTask ∈ sampleStore.getList ListType.done
      ∧ (sampleStore.getList ListType.done).countP (fun u => u.id == sampleDoneTask.id) = 1
      ∧ (∀ P, P ≠ ListType.done →
          ∀ u ∈ sampleStore.getList P, (u.id == sampleDoneTask.id) = false)
      ∧ sampleDoneTask.listType = ListType.done)
    ∧ ((moveTask sampleDoneTask.id ListType.todo ListType.done
          (moveTask sampleDoneTask.id ListType.done ListType.todo sampleStore)).getList
            ListType.done
        = (sampleStore.getList ListType.done).filter (fun u => u.id != sampleDoneTask.id)
            ++ [sampleDoneTask]
      ∧ ∀ P, P ≠ ListType.done →
          (moveTask sampleDoneTask.id ListType.todo ListType.done
            (moveTask sampleDoneTask.id ListType.done ListType.todo sampleStore)).getList P
          = sampleStore.getList P) :=
  ⟨⟨by decide, by decide, by decide, by decide⟩,
   moveTask_round_trip sampleStore sampleDoneTask ListType.done ListType.todo
     (by decide) (by decide) (by decide) (by decide)⟩

/-- `find?` over a list whose prefix rejects `p` returns the first hit. -/
theorem find_append_cons {α : Type} (p : α → Bool) (pre post : List α) (g : α)
    (hpre : ∀ x ∈ pre, p x = false) (hg : p g = true) :
    (pre ++ g :: post).find? p = some g := by
  induction pre with
  | nil => simp [List.find?_cons_of_pos _ hg]
  | cons a as ih =>
    have ha : p a = false := hpre a (by simp)
    rw [List.cons_append, List.find?_cons_of_neg _ (by simp [ha])]
    exact ih (fun x hx => hpre x (by simp [hx]))

/-- `updateFirst` over a list whose prefix rejects `p` rewrites exactly
the first hit. -/
theorem updateFirst_append {α : Type} (p : α → Bool) (f : α → α) (pre post : List α) (g : α)
    (hpre : ∀ x ∈ pre, p x = false) (hg : p g = true) :
    updateFirst p f (pre ++ g :: post) = pre ++ f g :: post := by
  induction pre with
  | nil => simp [updateFirst, hg]
  | cons a as ih =>
    have ha : p a = false := hpre a (by simp)
    simp only [List.cons_append, updateFirst, ha]
    rw [if_neg (by simp)]
    exact congrArg (fun l => a :: l) (ih (fun x hx => hpre x (by simp [hx])))

/-- C8: `toggleGoalAutoProgress` with `enabled = true` rewrites exactly
the addressed goal, setting `progress` to the rounded completion ratio
of its sub-goals (0 with no sub-goals); with `enabled = false` it only
flips the flag, leaving `progress` as it was; goals before and after the
addressed one are untouched. -/
theorem toggleGoalAutoProgress_spec (goalId : String) (pre post : List Goal) (g : Goal)
    (hpre : ∀ x ∈ pre, (x.id == goalId) = false) (hg : g.id = goalId) :
    (toggleGoalAutoProgress goalId true (pre ++ g :: post)).1
        = pre ++ applyAutoProgress true g :: post
    ∧ (applyAutoProgress true g).progress
        = (if g.subGoals.length = 0 then 0
           else jsRound (100 * (g.subGoals.filter (fun sg => sg.completed)).length)
             g.subGoals.length)
    ∧ (applyAutoProgress true g).autoProgress = true
    ∧ (toggleGoalAutoProgress goalId false (pre ++ g :: post)).1
        = pre ++ { g with autoProgress := false } :: post
    ∧ ({ g with autoProgress := false } : Goal).progress = g.progress := by
  have hpg : (g.id == goalId) = true := by simp [hg]
  have hfind := find_append_cons (fun g2 => g2.id == goalId) pre post g hpre hpg
  refine ⟨?_, ?_, ?_, ?_, rfl⟩
  · simp only [toggleGoalAutoProgress, hfind]
    exact updateFirst_append _ _ pre post g hpre hpg
  · rcases Nat.eq_zero_or_pos g.subGoals.length with hlen | hlen
    · simp [applyAutoProgress, hlen]
    · have hne : g.subGoals.length ≠ 0 := Nat.pos_iff_ne_zero.mp hlen
      simp [applyAutoProgress, hlen, hne]
  · simp only [applyAutoProgress]
    split
    · split <;> rfl
    · rfl
  · simp only [toggleGoalAutoProgress, hfind]
    have := updateFirst_append (fun g2 => g2.id == goalId) (applyAutoProgress false)
      pre post g hpre hpg
    rw [this]
    rfl

/-- Witness for C8: enabling auto-progress on a goal with 2 of 4
sub-goals completed computes progress 50; disabling keeps progress. -/
theorem toggleGoalAutoProgress_spec_witness :
    ((∀ x ∈ ([] : List Goal), (x.id == "11") = false) ∧ sampleGoal.id = "11")
    ∧ ((toggleGoalAutoProgress "11" true ([] ++ sampleGoal :: [])).1
          = [] ++ applyAutoProgress true sampleGoal :: []
      ∧ (applyAutoProgress true sampleGoal).progress
          = (if sampleGoal.subGoals.length = 0 then 0
             else jsRound (100 * (sampleGoal.subGoals.filter (fun sg => sg.completed)).length)
               sampleGoal.subGoals.length)
      ∧ (applyAutoProgress true sampleGoal).autoProgress = true
      ∧ (toggleGoalAutoProgress "11" false ([] ++ sampleGoal :: [])).1
          = [] ++ { sampleGoal with autoProgress := false } :: []
      ∧ ({ sampleGoal with autoProgress := false } : Goal).progress = sampleGoal.progress)
    ∧ (applyAutoProgress true sampleGoal).progress = 50 :=
  ⟨⟨by decide, by decide⟩,
   toggleGoalAutoProgress_spec "11" [] [] sampleGoal (by decide) (by decide),
   by decide⟩

/-- C9 counterexample: a draft naming the `done` partition is returned
by `addTask` but stored nowhere — the store is unchanged and the
returned task is absent from the Done list. -/
theorem addTask_done_draft_not_stored :
    doneDraft.listType = ListType.done
    ∧ (addTask 99 "2024-03-05T10:00:00.000Z" doneDraft sampleStore).1 = sampleStore
    ∧ (addTask 99 "2024-03-05T10:00:00.000Z" doneDraft sampleStore).2
        ∉ ((addTask 99 "2024-03-05T10:00:00.000Z" doneDraft sampleStore).1).getList
            ListType.done := by
  refine ⟨rfl, rfl, ?_⟩
  decide

/-- C9 amended: for a draft naming the `todo` or `tomorrow` partition,
`addTask` assigns the id and creation timestamp, appends the task to
exactly the named partition, returns it, and touches no other
partition.  (A draft naming `done` is returned but not stored.) -/
theorem addTask_stores_named_partition (nowMs : Nat) (nowIso : String) (draft : TaskDraft)
    (s : TodoStore) (h : draft.listType ≠ ListType.done) :
    (addTask nowMs nowIso draft s).2.id = natDecimalString nowMs
    ∧ (addTask nowMs nowIso draft s).2.createdAt = nowIso
    ∧ (addTask nowMs nowIso draft s).2.listType = draft.listType
    ∧ (addTask nowMs nowIso draft s).1.getList draft.listType
        = s.getList draft.listType ++ [(addTask nowMs nowIso draft s).2]
    ∧ ∀ P, P ≠ draft.listType →
        (addTask nowMs nowIso draft s).1.getList P = s.getList P := by
  obtain ⟨dtext, dest, dact, dcomp, dcompAt, dlt, dsrc, dhab, dgoal, dsub⟩ := draft
  cases dlt with
  | done => exact absurd rfl h
  | todo =>
    refine ⟨rfl, rfl, rfl, rfl, ?_⟩
    intro P hP
    cases P
    · exact absurd rfl hP
    · rfl
    · rfl
  | tomorrow =>
    refine ⟨rfl, rfl, rfl, rfl, ?_⟩
    intro P hP
    cases P
    · rfl
    · rfl
    · exact absurd rfl hP

/-- Witness for the amended C9 at the concrete Tomorrow draft. -/
theorem addTask_stores_named_partition_witness :
    tomorrowDraft.listType ≠ ListType.done
    ∧ ((addTask 123 "2024-03-05T11:00:00.000Z" tomorrowDraft sampleStore).2.id
          = natDecimalString 123
      ∧ (addTask 123 "2024-03-05T11:00:00.000Z" tomorrowDraft sampleStore).2.createdAt
          = "2024-03-05T11:00:00.000Z"
      ∧ (addTask 123 "2024-03-05T11:00:00.000Z" tomorrowDraft sampleStore).2.listType
          = tomorrowDraft.listType
      ∧ (addTask 123 "2024-03-05T11:00:00.000Z" tomorrowDraft sampleStore).1.getList
            tomorrowDraft.listType
          = sampleStore.getList tomorrowDraft.listType
            ++ [(addTask 123 "2024-03-05T11:00:00.000Z" tomorrowDraft sampleStore).2]
      ∧ ∀ P, P ≠ tomorrowDraft.listType →
          (addTask 123 "2024-03-05T11:00:00.000Z" tomorrowDraft sampleStore).1.getList P
          = sampleStore.getList P) :=
  ⟨by decide,
   addTask_stores_named_partition 123 "2024-03-05T11:00:00.000Z" tomorrowDraft sampleStore
     (by decide)⟩

theorem digitChar_decode : ∀ d : Nat, d < 10 → (Nat.digitChar d).toNat - 48 = d := by
  decide

theorem decChars_decode (fuel : Nat) : ∀ n : Nat, n ≤ fuel →
    (decChars fuel n).foldl (fun acc c => 10 * acc + (c.toNat - 48)) 0 = n := by
  induction fuel with
  | zero =>
    intro n hn
    have h0 : n = 0 := by omega
    subst h0
    rfl
  | succ fuel ih =>
    intro n hn
    match n with
    | 0 => rfl
    | m + 1 =>
      have hq : (m + 1) / 10 ≤ fuel := by
        have h1 : (m + 1) / 10 < m + 1 := Nat.div_lt_self (Nat.succ_pos m) (by omega)
        omega
      show (decChars fuel ((m + 1) / 10) ++ [Nat.digitChar ((m + 1) % 10)]).foldl
        (fun acc c => 10 * acc + (c.toNat - 48)) 0 = m + 1
      rw [List.foldl_append, ih _ hq]
      simp only [List.foldl]
      rw [digitChar_decode _ (Nat.mod_lt _ (by omega))]
      omega

theorem natDecimalString_decode (n : Nat) : decodeDecimal (natDecimalString n) = n := by
  by_cases h : n = 0
  · subst h
    decide
  · simp only [natDecimalString, if_neg h]
    exact decChars_decode n n le_rfl

/-- Decimal renderings of distinct numbers are distinct strings. -/
theorem natDecimalString_injective {m n : Nat}
    (h : natDecimalString m = natDecimalString n) : m = n := by
  have hm := natDecimalString_decode m
  rw [h, natDecimalString_decode n] at hm
  exact hm.symm

/-- C10 counterexample: two `addTask` calls in the same millisecond
(`Date.now()` returning 42 for both) store two distinct tasks carrying
the same id string. -/
theorem same_millisecond_ids_collide :
    ((addTask 42 "2024-03-05T10:00:00.042Z" secondDraft
        (addTask 42 "2024-03-05T10:00:00.042Z" firstDraft emptyStore).1).1).todoList.Nodup
    ∧ ¬ (((addTask 42 "2024-03-05T10:00:00.042Z" secondDraft
        (addTask 42 "2024-03-05T10:00:00.042Z" firstDraft emptyStore).1).1).todoList.map
          (fun t => t.id)).Nodup := by
  constructor
  · decide
  · decide

/-- C10 amended: every id assigned by the four creation operations is
exactly the decimal rendering of the creation-time millisecond
timestamp, so creations at distinct timestamps get distinct ids while
two creations within one millisecond receive the same id string. -/
theorem id_generation_time_based (ms1 ms2 : Nat) (iso1 : String) (d1 : TaskDraft)
    (s1 : TodoStore) (h1 : Habit) (st1 : HabitStore) (title1 : String)
    (rw1 : Option String) (gs1 : List Goal) (gid txt : String) (est : Option Nat)
    (goals : List Goal) (g2 : Goal) (hne : ms1 ≠ ms2) :
    (addTask ms1 iso1 d1 s1).2.id = natDecimalString ms1
    ∧ (addHabit ms1 h1 st1).2.id = natDecimalString ms1
    ∧ (addGoal ms1 iso1 title1 rw1 gs1).2.id = natDecimalString ms1
    ∧ ((addSubGoal ms1 iso1 gid txt est goals).2 = some g2 →
        g2.subGoals.getLast? = some
          { id := natDecimalString ms1, text := txt, completed := false,
            createdAt := iso1, estimatedTime := est })
    ∧ natDecimalString ms1 ≠ natDecimalString ms2 := by
  refine ⟨?_, rfl, rfl, ?_, fun he => hne (natDecimalString_injective he)⟩
  · obtain ⟨dtext, dest, dact, dcomp, dcompAt, dlt, dsrc, dhab, dgoal, dsub⟩ := d1
    cases dlt <;> rfl
  · intro hsome
    cases hf : goals.find? (fun g => g.id == gid) with
    | none => simp [addSubGoal, hf] at hsome
    | some g =>
      simp only [addSubGoal, hf] at hsome
      have hg2 : g2 = { g with subGoals := g.subGoals ++
          [{ id := natDecimalString ms1, text := txt, completed := false,
             createdAt := iso1, estimatedTime := est }] } := by
        exact (Option.some.injEq _ _ ▸ hsome).symm
      rw [hg2]
      exact List.getLast?_concat _

/-- Witness for the amended C10 at distinct timestamps 42 and 43. -/
theorem id_generation_time_based_witness :
    (42 : Nat) ≠ 43
    ∧ ((addTask 42 "2024-03-05T10:00:00.042Z" firstDraft emptyStore).2.id
          = natDecimalString 42
      ∧ (addHabit 42 stretchHabit emptyHabitStore).2.id = natDecimalString 42
      ∧ (addGoal 42 "2024-03-05T10:00:00.042Z" "ship it" none []).2.id
          = natDecimalString 42
      ∧ ((addSubGoal 42 "2024-03-05T10:00:00.042Z" "11" "substep" none [sampleGoal]).2
            = some sampleGoal →
          sampleGoal.subGoals.getLast? = some
            { id := natDecimalString 42, text := "substep", completed := false,
              createdAt := "2024-03-05T10:00:00.042Z", estimatedTime := none })
      ∧ natDecimalString 42 ≠ natDecimalString 43) :=
  ⟨by decide,
   id_generation_time_based 42 43 "2024-03-05T10:00:00.042Z" firstDraft emptyStore
     stretchHabit emptyHabitStore
     "ship it" none [] "11" "substep" none [sampleGoal] sampleGoal (by decide)⟩

/-- A routine run only appends its created tasks to the To-Do list. -/
theorem runRoutineAux_eq (dayOfWeek : Nat) (today : String) (stamp : Nat → Nat × String)
    (todoSnapshot : List TodoTask) :
    ∀ (habits : List Habit) (k : Nat) (s : TodoStore),
      runRoutineAux dayOfWeek today stamp todoSnapshot habits k s
        = { s with todoList := s.todoList
              ++ routineCreated dayOfWeek today stamp todoSnapshot habits k } := by
  intro habits
  induction habits with
  | nil =>
    intro k s
    simp [runRoutineAux, routineCreated]
  | cons habit rest ih =>
    intro k s
    by_cases he : routineEligible dayOfWeek habit
    · by_cases hx : routineTaskExists today habit.id todoSnapshot
      · simp only [runRoutineAux, routineCreated, if_pos he, if_pos hx]
        exact ih k s
      · simp only [runRoutineAux, routineCreated, if_pos he, if_neg hx]
        rw [ih]
        simp [addTask, routineTaskDraft, mkRoutineTask]
    · simp only [runRoutineAux, routineCreated, if_neg he]
      exact ih k s

/-- When every clock sample of the run falls on `today`, the created
tasks matching a habit id are counted by the habits that got one. -/
theorem routineCreated_countP (dayOfWeek : Nat) (today : String) (stamp : Nat → Nat × String)
    (todoSnapshot : List TodoTask) (habitId : String)
    (hstamp : ∀ j, (stamp j).2.take 10 = today) :
    ∀ (habits : List Habit) (k : Nat),
      (routineCreated dayOfWeek today stamp todoSnapshot habits k).countP
          (matchesHabitToday today habitId)
        = habits.countP (fun h2 => routineEligible dayOfWeek h2
            && !routineTaskExists today h2.id todoSnapshot && (h2.id == habitId)) := by
  intro habits
  induction habits with
  | nil => intro k; rfl
  | cons habit rest ih =>
    intro k
    by_cases he : routineEligible dayOfWeek habit
    · by_cases hx : routineTaskExists today habit.id todoSnapshot
      · simp only [routineCreated]
        rw [if_pos he, if_pos hx, ih k, List.countP_cons]
        simp [he, hx]
      · simp only [routineCreated]
        rw [if_pos he, if_neg hx, List.countP_cons, ih (k + 1), List.countP_cons]
        have hmk : matchesHabitToday today habitId (mkRoutineTask (stamp k) habit)
            = (habit.id == habitId) := by
          simp [matchesHabitToday, mkRoutineTask, hstamp k]
        rw [hmk]
        have hxf : routineTaskExists today habit.id todoSnapshot = false := by
          simp [hx]
        simp [hxf, he]
    · simp only [routineCreated]
      rw [if_neg he, ih k, List.countP_cons]
      have hef : routineEligible dayOfWeek habit = false := by
        simp [he]
      simp [hef]

/-- Every created task is the routine task of some eligible habit of the
list. -/
theorem routineCreated_mem (dayOfWeek : Nat) (today : String) (stamp : Nat → Nat × String)
    (todoSnapshot : List TodoTask) :
    ∀ (habits : List Habit) (k : Nat) (t : TodoTask),
      t ∈ routineCreated dayOfWeek today stamp todoSnapshot habits k →
        ∃ h2, h2 ∈ habits ∧ routineEligible dayOfWeek h2 = true
          ∧ ∃ j, t = mkRoutineTask (stamp j) h2 := by
  intro habits
  induction habits with
  | nil => intro k t ht; cases ht
  | cons habit rest ih =>
    intro k t ht
    by_cases he : routineEligible dayOfWeek habit
    · by_cases hx : routineTaskExists today habit.id todoSnapshot
      · simp only [routineCreated, if_pos he, if_pos hx] at ht
        obtain ⟨h2, h2mem, h2e, j, hj⟩ := ih k t ht
        exact ⟨h2, by simp [h2mem], h2e, j, hj⟩
      · simp only [routineCreated, if_pos he, if_neg hx] at ht
        rcases List.mem_cons.mp ht with hhd | htl
        · exact ⟨habit, by simp, he, k, hhd⟩
        · obtain ⟨h2, h2mem, h2e, j, hj⟩ := ih (k + 1) t htl
          exact ⟨h2, by simp [h2mem], h2e, j, hj⟩
    · simp only [routineCreated, if_neg he] at ht
      obtain ⟨h2, h2mem, h2e, j, hj⟩ := ih k t ht
      exact ⟨h2, by simp [h2mem], h2e, j, hj⟩

/-- In a list with exactly one element satisfying `p`, two satisfying
members coincide. -/
theorem eq_of_countP_eq_one {α : Type} (p : α → Bool) :
    ∀ l : List α, l.countP p = 1 →
      ∀ a ∈ l, ∀ b ∈ l, p a = true → p b = true → a = b := by
  intro l
  induction l with
  | nil => intro _ a ha; cases ha
  | cons x xs ih =>
    intro hcount a ha b hb hpa hpb
    cases hpx : p x with
    | true =>
      have h0 : xs.countP p = 0 := by
        have := List.countP_cons_of_pos p xs hpx
        omega
      have hnone := List.countP_eq_zero.mp h0
      have hax : a = x := by
        rcases List.mem_cons.mp ha with h | h
        · exact h
        · exact absurd hpa (by simpa using hnone a h)
      have hbx : b = x := by
        rcases List.mem_cons.mp hb with h | h
        · exact h
        · exact absurd hpb (by simpa using hnone b h)
      rw [hax, hbx]
    | false =>
      have hc : xs.countP p = 1 := by
        have : List.countP p (x :: xs) = List.countP p xs :=
          List.countP_cons_of_neg p xs (by simp [hpx])
        omega
      have hax : a ∈ xs := by
        rcases List.mem_cons.mp ha with h | h
        · exact absurd (h ▸ hpa) (by simp [hpx])
        · exact h
      have hbx : b ∈ xs := by
        rcases List.mem_cons.mp hb with h | h
        · exact absurd (h ▸ hpb) (by simp [hpx])
        · exact h
      exact ih hc a hax b hbx hpa hpb

/-- Every eligible habit either already had a matching To-Do task in the
snapshot or gets one created by the run. -/
theorem routineCreated_covers (dayOfWeek : Nat) (today : String) (stamp : Nat → Nat × String)
    (todoSnapshot : List TodoTask) :
    ∀ (habits : List Habit) (k : Nat) (h2 : Habit), h2 ∈ habits →
      routineEligible dayOfWeek h2 = true →
        routineTaskExists today h2.id todoSnapshot = true
        ∨ ∃ j, mkRoutineTask (stamp j) h2
            ∈ routineCreated dayOfWeek today stamp todoSnapshot habits k := by
  intro habits
  induction habits with
  | nil => intro k h2 hmem; cases hmem
  | cons habit rest ih =>
    intro k h2 hmem he2
    by_cases he : routineEligible dayOfWeek habit
    · by_cases hx : routineTaskExists today habit.id todoSnapshot
      · rcases List.mem_cons.mp hmem with hh | hh
        · subst hh
          exact Or.inl hx
        · rcases ih k h2 hh he2 with hl | ⟨j, hj⟩
          · exact Or.inl hl
          · refine Or.inr ⟨j, ?_⟩
            simp only [routineCreated, if_pos he, if_pos hx]
            exact hj
      · rcases List.mem_cons.mp hmem with hh | hh
        · subst hh
          refine Or.inr ⟨k, ?_⟩
          simp only [routineCreated, if_pos he, if_neg hx]
          exact List.mem_cons_self _ _
        · rcases ih (k + 1) h2 hh he2 with hl | ⟨j, hj⟩
          · exact Or.inl hl
          · refine Or.inr ⟨j, ?_⟩
            simp only [routineCreated, if_pos he, if_neg hx]
            exact List.mem_cons_of_mem _ hj
    · rcases List.mem_cons.mp hmem with hh | hh
      · exact absurd (hh ▸ he2) (by simp [he])
      · rcases ih k h2 hh he2 with hl | ⟨j, hj⟩
        · exact Or.inl hl
        · refine Or.inr ⟨j, ?_⟩
          simp only [routineCreated, if_neg he]
          exact hj

/-- A run over habits that are all ineligible or already represented
creates nothing. -/
theorem routineCreated_eq_nil (dayOfWeek : Nat) (today : String) (stamp : Nat → Nat × String)
    (todoSnapshot : List TodoTask) :
    ∀ (habits : List Habit) (k : Nat),
      (∀ h2 ∈ habits, routineEligible dayOfWeek h2 = true →
        routineTaskExists today h2.id todoSnapshot = true) →
      routineCreated dayOfWeek today stamp todoSnapshot habits k = [] := by
  intro habits
  induction habits with
  | nil => intro k _; rfl
  | cons habit rest ih =>
    intro k hall
    by_cases he : routineEligible dayOfWeek habit
    · have hx := hall habit (by simp) he
      simp only [routineCreated, if_pos he, if_pos hx]
      exact ih k (fun h2 hh => hall h2 (by simp [hh]))
    · simp only [routineCreated, if_neg he]
      exact ih k (fun h2 hh => hall h2 (by simp [hh]))

/-- C3: for a good, auto-add, scheduled habit occurring (uniquely by id)
in the habit list, with no task in any partition referencing it today,
one routine run (whose clock samples all fall on `today`) leaves exactly
one task in the whole store referencing the habit with today's bucket;
that task is a pending Routine task with the prescribed text; and a
second run the same day (any clock samples) changes nothing at all. -/
theorem runDailyHabitRoutines_spec (dayOfWeek : Nat) (today : String)
    (stamp : Nat → Nat × String) (habits : List Habit) (s : TodoStore) (h : Habit)
    (hstamp : ∀ j, (stamp j).2.take 10 = today)
    (hmem : h ∈ habits)
    (hocc : habits.countP (fun h2 => h2.id == h.id) = 1)
    (helig : routineEligible dayOfWeek h = true)
    (hnone : (allTasks s).countP (matchesHabitToday today h.id) = 0) :
    (allTasks (runDailyHabitRoutines dayOfWeek today stamp habits s)).countP
        (matchesHabitToday today h.id) = 1
    ∧ (∀ t ∈ allTasks (runDailyHabitRoutines dayOfWeek today stamp habits s),
        matchesHabitToday today h.id t = true →
          t.listType = ListType.todo ∧ t.source = some "Routine"
          ∧ t.habitId = some h.id ∧ t.text = h.name ++ " (from Habit)")
    ∧ ∀ stamp2 : Nat → Nat × String,
        runDailyHabitRoutines dayOfWeek today stamp2 habits
            (runDailyHabitRoutines dayOfWeek today stamp habits s)
          = runDailyHabitRoutines dayOfWeek today stamp habits s := by
  have hchar : runDailyHabitRoutines dayOfWeek today stamp habits s
      = { s with todoList := s.todoList
            ++ routineCreated dayOfWeek today stamp s.todoList habits 0 } :=
    runRoutineAux_eq dayOfWeek today stamp s.todoList habits 0 s
  have hparts : (s.todoList.countP (matchesHabitToday today h.id) = 0)
      ∧ (s.doneList.countP (matchesHabitToday today h.id) = 0)
      ∧ (s.tomorrowList.countP (matchesHabitToday today h.id) = 0) := by
    simp only [allTasks, List.countP_append] at hnone
    omega
  have hnotodo : routineTaskExists today h.id s.todoList = false := by
    apply List.any_eq_false.mpr
    intro t ht
    have := List.countP_eq_zero.mp hparts.1 t ht
    simpa [matchesHabitToday] using this
  have hcreated : (routineCreated dayOfWeek today stamp s.todoList habits 0).countP
      (matchesHabitToday today h.id) = 1 := by
    rw [routineCreated_countP dayOfWeek today stamp s.todoList h.id hstamp habits 0]
    have hle : habits.countP (fun h2 => routineEligible dayOfWeek h2
        && !routineTaskExists today h2.id s.todoList && (h2.id == h.id)) ≤
        habits.countP (fun h2 => h2.id == h.id) := by
      apply List.countP_mono_left
      intro h2 _ hp
      have := Bool.and_elim_right hp
      exact this
    have hge : 0 < habits.countP (fun h2 => routineEligible dayOfWeek h2
        && !routineTaskExists today h2.id s.todoList && (h2.id == h.id)) := by
      apply List.countP_pos_iff.mpr
      refine ⟨h, hmem, ?_⟩
      simp [helig, hnotodo]
    omega
  have hallAfter : allTasks (runDailyHabitRoutines dayOfWeek today stamp habits s)
      = (s.todoList ++ routineCreated dayOfWeek today stamp s.todoList habits 0)
        ++ s.doneList ++ s.tomorrowList := by
    rw [hchar]
    rfl
  refine ⟨?_, ?_, ?_⟩
  · rw [hallAfter]
    simp only [List.countP_append]
    omega
  · intro t ht hmatch
    rw [hallAfter] at ht
    have hnt : t ∉ s.todoList ∧ t ∉ s.doneList ∧ t ∉ s.tomorrowList := by
      refine ⟨?_, ?_, ?_⟩ <;> intro hmem2
      · exact absurd hmatch (by simpa using List.countP_eq_zero.mp hparts.1 t hmem2)
      · exact absurd hmatch (by simpa using List.countP_eq_zero.mp hparts.2.1 t hmem2)
      · exact absurd hmatch (by simpa using List.countP_eq_zero.mp hparts.2.2 t hmem2)
    have htc : t ∈ routineCreated dayOfWeek today stamp s.todoList habits 0 := by
      rcases List.mem_append.mp ht with h1 | h1
      · rcases List.mem_append.mp h1 with h2 | h2
        · rcases List.mem_append.mp h2 with h3 | h3
          · exact absurd h3 hnt.1
          · exact h3
        · exact absurd h2 hnt.2.1
      · exact absurd h1 hnt.2.2
    obtain ⟨h2, h2mem, h2elig, j, hj⟩ :=
      routineCreated_mem dayOfWeek today stamp s.todoList habits 0 t htc
    have hid2 : h2.id = h.id := by
      rw [hj] at hmatch
      simp only [matchesHabitToday, mkRoutineTask] at hmatch
      have := Bool.and_elim_left hmatch
      simpa using this
    have hsame : h2 = h := by
      apply eq_of_countP_eq_one (fun h3 => h3.id == h.id) habits hocc h2 h2mem h hmem
      · simp [hid2]
      · simp
    rw [hj, hsame]
    exact ⟨rfl, rfl, rfl, rfl⟩
  · intro stamp2
    have hchar2 : runDailyHabitRoutines dayOfWeek today stamp2 habits
        (runDailyHabitRoutines dayOfWeek today stamp habits s)
        = { runDailyHabitRoutines dayOfWeek today stamp habits s with
            todoList := (runDailyHabitRoutines dayOfWeek today stamp habits s).todoList
              ++ routineCreated dayOfWeek today stamp2
                  (runDailyHabitRoutines dayOfWeek today stamp habits s).todoList habits 0 } :=
      runRoutineAux_eq dayOfWeek today stamp2 _ habits 0 _
    have htodoAfter : (runDailyHabitRoutines dayOfWeek today stamp habits s).todoList
        = s.todoList ++ routineCreated dayOfWeek today stamp s.todoList habits 0 := by
      rw [hchar]
    have hnil : routineCreated dayOfWeek today stamp2
        (runDailyHabitRoutines dayOfWeek today stamp habits s).todoList habits 0 = [] := by
      apply routineCreated_eq_nil
      intro h2 h2mem h2elig
      rw [htodoAfter]
      simp only [routineTaskExists, List.any_append]
      rcases routineCreated_covers dayOfWeek today stamp s.todoList habits 0 h2 h2mem h2elig
        with hl | ⟨j, hj⟩
      · rw [Bool.or_eq_true]
        exact Or.inl hl
      · rw [Bool.or_eq_true]
        refine Or.inr (List.any_eq_true.mpr ⟨mkRoutineTask (stamp j) h2, hj, ?_⟩)
        simp [matchesHabitToday, mkRoutineTask, hstamp j]
    rw [hchar2, hnil]
    simp

/-- Witness for C3: one eligible habit, empty store. -/
theorem runDailyHabitRoutines_spec_witness :
    ((∀ j, (witnessStamp j).2.take 10 = "2024-03-05")
      ∧ routineHabit ∈ [routineHabit]
      ∧ ([routineHabit].countP (fun h2 => h2.id == routineHabit.id) = 1)
      ∧ routineEligible 1 routineHabit = true
      ∧ (allTasks emptyStore).countP (matchesHabitToday "2024-03-05" routineHabit.id) = 0)
    ∧ ((allTasks (runDailyHabitRoutines 1 "2024-03-05" witnessStamp [routineHabit]
          emptyStore)).countP (matchesHabitToday "2024-03-05" routineHabit.id) = 1
      ∧ (∀ t ∈ allTasks (runDailyHabitRoutines 1 "2024-03-05" witnessStamp [routineHabit]
            emptyStore),
          matchesHabitToday "2024-03-05" routineHabit.id t = true →
            t.listType = ListType.todo ∧ t.source = some "Routine"
            ∧ t.habitId = some routineHabit.id
            ∧ t.text = routineHabit.name ++ " (from Habit)")
      ∧ ∀ stamp2 : Nat → Nat × String,
          runDailyHabitRoutines 1 "2024-03-05" stamp2 [routineHabit]
              (runDailyHabitRoutines 1 "2024-03-05" witnessStamp [routineHabit] emptyStore)
            = runDailyHabitRoutines 1 "2024-03-05" witnessStamp [routineHabit] emptyStore) :=
  ⟨⟨fun _ => by
      show ("2024-03-05T09:00:00.000Z" : String).take 10 = "2024-03-05"
      decide,
    by decide, by decide, by decide, by decide⟩,
   runDailyHabitRoutines_spec 1 "2024-03-05" witnessStamp [routineHabit] emptyStore
     routineHabit
     (fun _ => by
       show ("2024-03-05T09:00:00.000Z" : String).take 10 = "2024-03-05"
       decide)
     (by decide) (by decide) (by decide) (by decide)⟩

theorem takeWhile_length_walkBack (p : String → Bool) :
    ∀ l : List String, (l.takeWhile p).length = walkBackCount p l := by
  intro l
  induction l with
  | nil => rfl
  | cons a rest ih =>
    cases hpa : p a with
    | true => simp [List.takeWhile, hpa, walkBackCount, ih]
    | false => simp [List.takeWhile, hpa, walkBackCount]

theorem walkBack_map (p : String → Bool) :
    ∀ l : List String, walkBackCount p l = boolWalkBack (l.map p) := by
  intro l
  induction l with
  | nil => rfl
  | cons a rest ih =>
    simp only [walkBackCount, List.map, boolWalkBack, ih]

theorem bestLoop_map (comps : List String) :
    ∀ (week : List String) (cur best : Nat),
      bestStreakLoop comps week cur best
        = boolBestLoop (week.map (fun d => comps.contains d)) cur best := by
  intro week
  induction week with
  | nil => intro cur best; rfl
  | cons d rest ih =>
    intro cur best
    simp only [bestStreakLoop, List.map, boolBestLoop]
    by_cases hd : comps.contains d = true
    · rw [if_pos hd, if_pos hd]
      exact ih _ _
    · rw [if_neg hd, if_neg hd]
      exact ih _ _

theorem all_map_id (p : String → Bool) :
    ∀ l : List String, (l.map p).all (fun b => b) = l.all p := by
  intro l
  induction l with
  | nil => rfl
  | cons a rest ih => simp [List.all_cons, ih]

theorem specBest_map (p : String → Bool) (week : List String) :
    specBestStreak p week = boolSpecBest (week.map p) := by
  have hrun : ∀ k, hasCompletedRun p week k = boolHasRun (week.map p) k := by
    intro k
    simp only [hasCompletedRun, boolHasRun, List.length_map]
    apply congrArg
    funext i
    rw [← List.map_drop, ← List.map_take, List.length_map, all_map_id]
  simp only [specBestStreak, boolSpecBest, List.length_map]
  rw [List.filter_congr (fun k _ => hrun k)]

theorem boolBest_spec7 : ∀ b1 b2 b3 b4 b5 b6 b7 : Bool,
    boolBestLoop [b1, b2, b3, b4, b5, b6, b7] 0 0
      = boolSpecBest [b1, b2, b3, b4, b5, b6, b7] := by
  decide

theorem exists_seven {α : Type} (l : List α) (h : l.length = 7) :
    ∃ a b c d e f g, l = [a, b, c, d, e, f, g] := by
  match l, h with
  | [a, b, c, d, e, f, g], _ => exact ⟨a, b, c, d, e, f, g, rfl⟩

/-- C4: over the 7 week dates, `getHabitStats` computes the
current streak as the spec's backward walk from Saturday, the best
streak as the longest run of consecutive completed days scanning
forward, and the percentage as round(completions/7*100); in particular
a fully completed week yields streaks 7 (and percent 100 for a
duplicate-free ledger), and a week completed only on Monday and
Wednesday yields best streak 1 and current streak 0. -/
theorem getHabitStats_spec (cur : Ledger) (weekDates : List String) (habit : Habit)
    (hlen : weekDates.length = 7) :
    (getHabitStats cur weekDates habit).currentStreak
        = specCurrentStreak
            (fun d => (getHabitStats cur weekDates habit).completions.contains d) weekDates
    ∧ (getHabitStats cur weekDates habit).bestStreak
        = specBestStreak
            (fun d => (getHabitStats cur weekDates habit).completions.contains d) weekDates
    ∧ (getHabitStats cur weekDates habit).percent
        = jsRound (100 * (getHabitStats cur weekDates habit).total) 7
    ∧ (weekDates.map (fun d => (getHabitStats cur weekDates habit).completions.contains d)
          = List.replicate 7 true →
        (getHabitStats cur weekDates habit).currentStreak = 7
        ∧ (getHabitStats cur weekDates habit).bestStreak = 7)
    ∧ ((getHabitStats cur weekDates habit).completions.Nodup → weekDates.Nodup →
        (∀ d ∈ weekDates,
          (getHabitStats cur weekDates habit).completions.contains d = true) →
        (getHabitStats cur weekDates habit).percent = 100)
    ∧ (weekDates.map (fun d => (getHabitStats cur weekDates habit).completions.contains d)
          = [false, true, false, true, false, false, false] →
        (getHabitStats cur weekDates habit).bestStreak = 1
        ∧ (getHabitStats cur weekDates habit).currentStreak = 0) := by
  have hcs : (getHabitStats cur weekDates habit).currentStreak
      = (weekDates.reverse.takeWhile
          (fun d => (getHabitStats cur weekDates habit).completions.contains d)).length := rfl
  have hbs : (getHabitStats cur weekDates habit).bestStreak
      = bestStreakLoop (getHabitStats cur weekDates habit).completions weekDates 0 0 := rfl
  have hpc : (getHabitStats cur weekDates habit).percent
      = (if weekDates.length > 0 then
          jsRound (100 * (getHabitStats cur weekDates habit).total) weekDates.length
         else 0) := rfl
  refine ⟨?_, ?_, ?_, ?_, ?_, ?_⟩
  · rw [hcs]
    simp only [specCurrentStreak]
    exact takeWhile_length_walkBack _ _
  · rw [hbs, bestLoop_map, specBest_map]
    obtain ⟨b1, b2, b3, b4, b5, b6, b7, hb⟩ :=
      exists_seven (weekDates.map
        (fun d => (getHabitStats cur weekDates habit).completions.contains d))
        (by rw [List.length_map, hlen])
    rw [hb]
    exact boolBest_spec7 b1 b2 b3 b4 b5 b6 b7
  · rw [hpc, hlen]
    simp
  · intro hall
    constructor
    · rw [hcs, takeWhile_length_walkBack, walkBack_map, List.map_reverse, hall,
        List.reverse_replicate]
      decide
    · rw [hbs, bestLoop_map, hall]
      decide
  · intro hnodupC hnodupW hall
    have hsub1 : ∀ d ∈ (getHabitStats cur weekDates habit).completions, d ∈ weekDates := by
      intro d hd
      have := (List.mem_filter.mp hd).2
      simpa [List.contains] using List.elem_iff.mp this
    have hsub2 : ∀ d ∈ weekDates, d ∈ (getHabitStats cur weekDates habit).completions := by
      intro d hd
      exact List.elem_iff.mp (hall d hd)
    have hfin : ((getHabitStats cur weekDates habit).completions).toFinset
        = weekDates.toFinset := by
      ext a
      simp only [List.mem_toFinset]
      exact ⟨fun h2 => hsub1 a h2, fun h2 => hsub2 a h2⟩
    have hlenwc : (getHabitStats cur weekDates habit).completions.length = 7 := by
      have h1 := List.toFinset_card_of_nodup hnodupC
      have h2 := List.toFinset_card_of_nodup hnodupW
      rw [hfin, h2, hlen] at h1
      exact h1.symm
    have htot : (getHabitStats cur weekDates habit).total
        = (getHabitStats cur weekDates habit).completions.length := rfl
    rw [hpc, hlen, htot, hlenwc]
    decide
  · intro hpat
    constructor
    · rw [hbs, bestLoop_map, hpat]
      decide
    · rw [hcs, takeWhile_length_walkBack, walkBack_map, List.map_reverse, hpat]
      decide

/-- Witness for C4 at `sampleWeek` and the Monday/Wednesday ledger. -/
theorem getHabitStats_spec_witness :
    sampleWeek.length = 7
    ∧ ((getHabitStats sampleLedger sampleWeek routineHabit).currentStreak
          = specCurrentStreak
              (fun d => (getHabitStats sampleLedger sampleWeek routineHabit).completions.contains d)
              sampleWeek
      ∧ (getHabitStats sampleLedger sampleWeek routineHabit).bestStreak
          = specBestStreak
              (fun d => (getHabitStats sampleLedger sampleWeek routineHabit).completions.contains d)
              sampleWeek
      ∧ (getHabitStats sampleLedger sampleWeek routineHabit).percent
          = jsRound (100 * (getHabitStats sampleLedger sampleWeek routineHabit).total) 7
      ∧ (sampleWeek.map
            (fun d => (getHabitStats sampleLedger sampleWeek routineHabit).completions.contains d)
            = List.replicate 7 true →
          (getHabitStats sampleLedger sampleWeek routineHabit).currentStreak = 7
          ∧ (getHabitStats sampleLedger sampleWeek routineHabit).bestStreak = 7)
      ∧ ((getHabitStats sampleLedger sampleWeek routineHabit).completions.Nodup →
          sampleWeek.Nodup →
          (∀ d ∈ sampleWeek,
            (getHabitStats sampleLedger sampleWeek routineHabit).completions.contains d
              = true) →
          (getHabitStats sampleLedger sampleWeek routineHabit).percent = 100)
      ∧ (sampleWeek.map
            (fun d => (getHabitStats sampleLedger sampleWeek routineHabit).completions.contains d)
            = [false, true, false, true, false, false, false] →
          (getHabitStats sampleLedger sampleWeek routineHabit).bestStreak = 1
          ∧ (getHabitStats sampleLedger sampleWeek routineHabit).currentStreak = 0)) :=
  ⟨by decide, getHabitStats_spec sampleLedger sampleWeek routineHabit (by decide)⟩
